import Mathlib

/-!
Verification of the wish-tree library (`src/file_set.rs`, `src/mount_source.rs`):
a shallow embedding of the mount-source data model, the tree resolver
(`walk_recursive` / `resolve_virtual_files` / `walk_virtual_files`) and the
three renderers (`render_to_fs`, `render_to_zip`, `render_to_tar_gz`).

Conventions of the embedding:
* Rust `PathBuf` is `MPath`: an absoluteness flag plus the list of components.
  `MPath.join` models `Path::join` (an absolute right operand replaces the
  left operand entirely).
* The host file system read by `CopyFromPath` / `FileSet` sources is a snapshot
  `HFs : MPath → Option FsNode`, consulted only at the roots the code queries.
* Byte contents are `List Nat`; text content uses the UTF-8 encoding.
* Panics (`unwrap`) are `Option.none` / `PanicOr.panicked` results.
* The archive renderers are modelled by the sequence of entries they feed to
  the (external, opaque) zip/tar writers, as a `List SinkCall`.
* The filesystem renderer mutates a target-state `TargetFs`, a path-keyed
  association list; `fs::create_dir_all` and `File::create` are modelled with
  their standard semantics (create-all tolerates existing directories and
  fails on a file component; create/truncate fails on a directory or a
  missing parent).
-/

/-! ### Paths -/

/-- Model of Rust `PathBuf` / `Path`: an absoluteness flag and the list of
normal components. `PathBuf::from("")` is `⟨false, []⟩`, `/` is `⟨true, []⟩`. -/
structure MPath where
  absolute : Bool
  components : List String
deriving DecidableEq

/-- The starting mount point of `walk_mounts`: `PathBuf::from("")`. -/
def MPath.root : MPath := ⟨false, []⟩

/-- Model of `Path::join`: joining an absolute path replaces the receiver
entirely, otherwise the components are appended. -/
def MPath.join (p q : MPath) : MPath :=
  if q.absolute then q else ⟨p.absolute, p.components ++ q.components⟩

/-- Joining a relative component list (the result of `strip_prefix`) onto a
path; this is `Path::join` with a right operand that is never absolute. -/
def MPath.joinRel (p : MPath) (rel : List String) : MPath :=
  ⟨p.absolute, p.components ++ rel⟩

/-- Model of `Path::parent`: `None` for a root (`""` or `/`), otherwise the
path with its last component dropped. -/
def MPath.parent (p : MPath) : Option MPath :=
  if p.components = [] then none else some ⟨p.absolute, p.components.dropLast⟩

/-- Model of `path.as_os_str().is_empty()`: only `PathBuf::from("")` has an
empty OS string (`/` renders as "/"). -/
def MPath.isEmptyOs (p : MPath) : Bool :=
  !p.absolute && p.components.isEmpty

/-- All ancestors of a path from the root down to the path itself (the
directories `fs::create_dir_all` has to ensure exist). -/
def MPath.ancestorChain (p : MPath) : List MPath :=
  p.components.inits.map (fun l => ⟨p.absolute, l⟩)

/-- UTF-8 encoding of one character (standard 1–4 byte encoding). -/
def utf8EncodeCharNat (c : Char) : List Nat :=
  let n := c.toNat
  if n < 0x80 then [n]
  else if n < 0x800 then [0xC0 ||| (n >>> 6), 0x80 ||| (n &&& 0x3F)]
  else if n < 0x10000 then
    [0xE0 ||| (n >>> 12), 0x80 ||| ((n >>> 6) &&& 0x3F), 0x80 ||| (n &&& 0x3F)]
  else
    [0xF0 ||| (n >>> 18), 0x80 ||| ((n >>> 12) &&& 0x3F),
     0x80 ||| ((n >>> 6) &&& 0x3F), 0x80 ||| (n &&& 0x3F)]

/-- UTF-8 bytes of a string: the byte content produced for `TextContent`. -/
def utf8Bytes (s : String) : List Nat :=
  s.data.flatMap utf8EncodeCharNat

/-! ### Host file system snapshot (read side) -/

mutual
/-- A node of the host file system: a regular file with its byte content, or a
directory with named children in host enumeration order. -/
inductive FsNode where
  | file (content : List Nat)
  | dir (entries : FsEntries)
/-- The ordered children of a host directory (a list of name/node pairs). -/
inductive FsEntries where
  | nil
  | cons (name : String) (node : FsNode) (rest : FsEntries)
end

/-- The host file system as read by the renderers: a snapshot mapping each
path the code queries to the subtree rooted there (if any). -/
abbrev HFs := MPath → Option FsNode

/-- One entry yielded by the `walkdir` enumeration: its path relative to the
walked base directory, whether it is a directory, and (for files) its bytes. -/
structure WalkEntry where
  rel : List String
  isDirEntry : Bool
  content : List Nat
deriving DecidableEq

mutual
/-- Pre-order enumeration of a host subtree, the base itself first — the order
`WalkDir::new(base)` yields entries in. -/
def enumNode (rel : List String) (n : FsNode) : List WalkEntry :=
  match n with
  | .file c => [⟨rel, false, c⟩]
  | .dir es => ⟨rel, true, []⟩ :: enumEntries rel es
/-- Enumeration of a host directory's children, in listed order. -/
def enumEntries (rel : List String) (es : FsEntries) : List WalkEntry :=
  match es with
  | .nil => []
  | .cons name node rest => enumNode (rel ++ [name]) node ++ enumEntries rel rest
end

/-- Model of the crate's `walkdir` helper:
`WalkDir::new(base_dir).into_iter().filter_map(|e| e.ok())`.
Enumeration errors are dropped by the `filter_map`, so in particular a missing
base directory yields no entries at all (its single `Err` entry is discarded). -/
def walkdir (hfs : HFs) (base_dir : MPath) : List WalkEntry :=
  match hfs base_dir with
  | some n => enumNode [] n
  | none => []

/-! ### File sets (`src/file_set.rs`) -/

/-- A parsed glob pattern. Parsing and matching live in the external `globset`
crate; the pattern is kept opaque here. -/
structure Glob where
  pattern : String
deriving DecidableEq

/-- The error returned by `globset::Glob::new` on invalid pattern syntax. -/
structure PatternError where
  msg : String
deriving DecidableEq

/-- `FileSet`: a base directory plus the built glob set. The external
`GlobSet` is modelled by its match predicate over a (whole) path. -/
structure FileSet where
  base_dir : MPath
  includes : MPath → Bool

/-- `FileSet::matches`: `self.includes.is_match(path)`. -/
def FileSet.matches (s : FileSet) (path : MPath) : Bool :=
  s.includes path

/-- `FileSetBuilder`: a base directory plus the accumulated include globs. -/
structure FileSetBuilder where
  base_dir : MPath
  includes : List Glob
deriving DecidableEq

/-- Rust result of `FileSetBuilder::include`, which has no error channel: the
call either returns the builder or panics (its `.unwrap()` aborts). -/
inductive PanicOr (α : Type) where
  | ok (val : α)
  | panicked
deriving DecidableEq

/-- `FileSetBuilder::include` (named `includePat` here because `include` is a
Lean keyword): `self.includes.add(Glob::new(value.as_ref()).unwrap()); self`.
The external parser `Glob::new` is passed in as `globNew`; a parse error hits
the `.unwrap()` and panics — it is not returned to the caller. -/
def FileSetBuilder.includePat (globNew : String → Except PatternError Glob)
    (b : FileSetBuilder) (value : String) : PanicOr FileSetBuilder :=
  match globNew value with
  | .ok g => .ok { b with includes := b.includes ++ [g] }
  | .error _ => .panicked

/-! ### Mount sources (`src/mount_source.rs`) -/

mutual
/-- `MountSource`: the tagged union of tree node variants. -/
inductive MountSource where
  | copyFromPath (p : MPath)
  | customDir (entries : DirEntries)
  | textContent (text : String)
  | fileSet (set : FileSet)
/-- `Vec<CustomDirEntry>`: the ordered entries of a `CustomDir`, each a
`CustomDirEntry { name, mount_source }` (inlined into the list constructor). -/
inductive DirEntries where
  | nil
  | cons (name : MPath) (mountSource : MountSource) (rest : DirEntries)
end

/-- `Mount`: an ephemeral pairing of a mount point and the source mounted
there, produced during the tree walk. -/
structure Mount where
  point : MPath
  source : MountSource

/-- `VirtualFile`: output path, directory flag and lazily-read content.
`content = some bytes` is a readable source; `content = none` marks a file
whose `File::open(..).unwrap()` panics when the lazy iterator reaches it. -/
structure VirtualFile where
  path : MPath
  is_dir : Bool
  content : Option (List Nat)
deriving DecidableEq

/-- `VirtualFile::file`. -/
def VirtualFile.file (full_path : MPath) (content : Option (List Nat)) : VirtualFile :=
  ⟨full_path, false, content⟩

/-- `VirtualFile::dir` (its reader is `io::empty()`). -/
def VirtualFile.dir (full_path : MPath) : VirtualFile :=
  ⟨full_path, true, some []⟩

/-- `create_virtual_file_from_dir_entry`: output path is
`mount_point.join(entry.path().strip_prefix(base_dir))` (the entry's relative
path), a directory entry becomes a directory virtual file, a file entry is
opened for reading. -/
def createVirtualFileFromDirEntry (e : WalkEntry) (mount_point : MPath) : VirtualFile :=
  if e.isDirEntry then VirtualFile.dir (mount_point.joinRel e.rel)
  else VirtualFile.file (mount_point.joinRel e.rel) (some e.content)

/-- `p.is_dir()` against the host snapshot. -/
def isDirAt (hfs : HFs) (p : MPath) : Bool :=
  match hfs p with
  | some (.dir _) => true
  | _ => false

/-- `MountSource::resolve_virtual_files`: expand one mount into its virtual
files. `CopyFromPath` of a non-directory opens the file (panicking lazily if
the path is missing); `CustomDir` is a single directory entry; `TextContent`
a single file entry; `FileSet` filters the walked entries through
`set.matches(e.path())` — note: applied to the entry's full path. -/
def resolveVirtualFiles (hfs : HFs) (src : MountSource) (mount_point : MPath) :
    List VirtualFile :=
  match src with
  | .copyFromPath p =>
    if isDirAt hfs p then
      (walkdir hfs p).map (fun e => createVirtualFileFromDirEntry e mount_point)
    else
      match hfs p with
      | some (.file c) => [VirtualFile.file mount_point (some c)]
      | _ => [VirtualFile.file mount_point none]
  | .customDir _ => [VirtualFile.dir mount_point]
  | .textContent t => [VirtualFile.file mount_point (some (utf8Bytes t))]
  | .fileSet set =>
    ((walkdir hfs set.base_dir).filter
        (fun e => set.matches (set.base_dir.joinRel e.rel))).map
      (fun e => createVirtualFileFromDirEntry e mount_point)

mutual
/-- `MountSource::walk_recursive`: the mount for the current node first, then
(for `CustomDir` only) each entry's subtree in listed order, the child mounted
at `mount_point.join(entry.name)`. -/
def walkRecursive (src : MountSource) (mount_point : MPath) : List Mount :=
  match src with
  | .customDir entries => ⟨mount_point, .customDir entries⟩ :: walkEntriesRec entries mount_point
  | s => [⟨mount_point, s⟩]
/-- The flattened walk of a `CustomDir`'s entries in listed order. -/
def walkEntriesRec (es : DirEntries) (mount_point : MPath) : List Mount :=
  match es with
  | .nil => []
  | .cons name child rest =>
    walkRecursive child (mount_point.join name) ++ walkEntriesRec rest mount_point
end

/-- `MountSource::walk_mounts`: the walk starting at `PathBuf::from("")`. -/
def walkMounts (src : MountSource) : List Mount :=
  walkRecursive src MPath.root

/-- `MountSource::walk_virtual_files`:
`walk_mounts().map(|m| m.source.resolve_virtual_files(m.point)).flatten()`. -/
def walkVirtualFiles (hfs : HFs) (src : MountSource) : List VirtualFile :=
  (walkMounts src).flatMap (fun m => resolveVirtualFiles hfs m.source m.point)

/-! ### Archive renderers, modelled as the entry sequence fed to the sink -/

/-- One entry fed to an archive writer: a directory record or a file entry
with its full byte content. -/
inductive SinkCall where
  | directory (path : MPath)
  | fileEntry (path : MPath) (content : List Nat)
deriving DecidableEq

/-- The body of `render_to_zip`'s loop: a directory entry with an empty path
(the synthetic root) is skipped, any other directory entry becomes a directory
record, and every file entry — with no emptiness check — becomes a file entry
at its path. A file whose lazy open panics aborts the loop. -/
def zipCalls : List VirtualFile → List SinkCall
  | [] => []
  | w :: rest =>
    if w.is_dir then
      if w.path.isEmptyOs then zipCalls rest
      else .directory w.path :: zipCalls rest
    else
      match w.content with
      | some c => .fileEntry w.path c :: zipCalls rest
      | none => []

/-- The body of `render_to_tar_gz`'s loop: same skip/dispatch structure as the
zip renderer (directory headers for non-root directory entries, a sized file
header plus content for file entries). -/
def tarCalls : List VirtualFile → List SinkCall
  | [] => []
  | w :: rest =>
    if w.is_dir then
      if w.path.isEmptyOs then tarCalls rest
      else .directory w.path :: tarCalls rest
    else
      match w.content with
      | some c => .fileEntry w.path c :: tarCalls rest
      | none => []

/-- `MountSource::render_to_zip`, as the sequence of entries fed to the
`ZipWriter`. -/
def renderToZip (hfs : HFs) (src : MountSource) : List SinkCall :=
  zipCalls (walkVirtualFiles hfs src)

/-- `MountSource::render_to_tar_gz`, as the sequence of entries fed to the
tar builder. -/
def renderToTarGz (hfs : HFs) (src : MountSource) : List SinkCall :=
  tarCalls (walkVirtualFiles hfs src)

/-! ### Filesystem renderer (`render_to_fs`) and its target-state model -/

/-- What exists at a path in the render target: a regular file with content,
or a directory. -/
inductive FsKind where
  | file (content : List Nat)
  | dir
deriving DecidableEq

/-- The mutable target file system: a path-keyed association list. Only the
`lookupFs` view of it matters; all theorems about it are stated pointwise. -/
abbrev TargetFs := List (MPath × FsKind)

/-- Look a path up in the target state (first binding wins). -/
def lookupFs (fs : TargetFs) (p : MPath) : Option FsKind :=
  match fs with
  | [] => none
  | (q, k) :: rest => if q = p then some k else lookupFs rest p

/-- Bind a path in the target state, replacing any previous binding. -/
def insertFs (fs : TargetFs) (p : MPath) (k : FsKind) : TargetFs :=
  (p, k) :: fs.filter (fun e => decide (e.1 ≠ p))

/-- One directory-creation step of `fs::create_dir_all`: a root path (`""` or
`/`) always exists, an existing directory is tolerated, an existing file is an
error, a missing path is created as a directory. -/
def mkdirOne (fs : TargetFs) (q : MPath) : Option TargetFs :=
  if q.components = [] then some fs
  else
    match lookupFs fs q with
    | some (.file _) => none
    | some .dir => some fs
    | none => some (insertFs fs q .dir)

/-- Model of `fs::create_dir_all(p)`: ensure every ancestor of `p` (and `p`
itself) exists as a directory, failing if one exists as a file. The model is
atomic (a failing call leaves the state unchanged); on well-formed states this
agrees with the real call, since the first conflicting component is
encountered before anything below it could be created. -/
def createDirAll (fs : TargetFs) (p : MPath) : Option TargetFs :=
  p.ancestorChain.foldlM mkdirOne fs

/-- Whether `File::create(p)` would find its parent directory: a root parent
always exists, otherwise the parent must be bound as a directory. -/
def parentIsDirOk (fs : TargetFs) (p : MPath) : Bool :=
  match p.parent with
  | none => false
  | some par => if par.components = [] then true else decide (lookupFs fs par = some .dir)

/-- Model of `File::create(p)` followed by copying `c` into it: truncates and
rewrites an existing file, fails on an existing directory, a missing parent or
a rootless path. -/
def fileCreate (fs : TargetFs) (p : MPath) (c : List Nat) : Option TargetFs :=
  if p.components = [] then none
  else
    match lookupFs fs p with
    | some .dir => none
    | _ => if parentIsDirOk fs p then some (insertFs fs p (.file c)) else none

/-- The body of `render_to_fs`'s loop for one virtual file `w`, at
`absolute_path = target_dir.join(&w.path)`:
for a directory, `fs::create_dir_all(absolute_path);` — the `Result` is
discarded, so a failure leaves the state unchanged and the render continues;
for a file, `fs::create_dir_all(absolute_path.parent().unwrap())` (result
again discarded, and a missing parent panics on the `unwrap`), then
`File::create(absolute_path).unwrap()` — a creation failure panics — and the
content is copied in. A file whose lazy open panicked aborts here. -/
def renderStep (target_dir : MPath) (fs : TargetFs) (w : VirtualFile) : Option TargetFs :=
  let ap := target_dir.join w.path
  if w.is_dir then
    some ((createDirAll fs ap).getD fs)
  else
    match w.content with
    | none => none
    | some c =>
      match ap.parent with
      | none => none
      | some par => fileCreate ((createDirAll fs par).getD fs) ap c

/-- The loop of `render_to_fs` over the flattened virtual-file sequence. -/
def runList (target_dir : MPath) (fs : TargetFs) : List VirtualFile → Option TargetFs
  | [] => some fs
  | w :: rest =>
    match renderStep target_dir fs w with
    | none => none
    | some fs1 => runList target_dir fs1 rest

/-- `MountSource::render_to_fs(target_dir)`, acting on a target state. -/
def renderToFs (hfs : HFs) (src : MountSource) (target_dir : MPath) (fs : TargetFs) :
    Option TargetFs :=
  runList target_dir fs (walkVirtualFiles hfs src)

/-! ### Definitions in support of the verification -/

/-- Modelled from the spec (§4.2, for comparison only): resolution of a
`FileSet` as the specification words it — every walked entry is filtered
through `set.matches` applied to the entry's path RELATIVE to `base_dir`.
The implementation (`resolveVirtualFiles`) instead passes the entry's full
path `e.path()` to the filter. -/
def resolveFileSetSpec (hfs : HFs) (set : FileSet) (mount_point : MPath) : List VirtualFile :=
  ((walkdir hfs set.base_dir).filter (fun e => set.matches ⟨false, e.rel⟩)).map
    (fun e => createVirtualFileFromDirEntry e mount_point)

/-- The flattened virtual files of one `CustomDir` entry's subtree: its walk
starts at the parent mount point joined with the entry's name. -/
def entrySubtree (hfs : HFs) (point name : MPath) (src : MountSource) : List VirtualFile :=
  (walkRecursive src (point.join name)).flatMap
    (fun m => resolveVirtualFiles hfs m.source m.point)

mutual
/-- Whether a mount source is purely synthetic: built from `CustomDir` and
`TextContent` variants only (no filesystem-backed sources). -/
def syntheticB : MountSource → Bool
  | .customDir es => syntheticEntries es
  | .textContent _ => true
  | _ => false
/-- Whether every entry of a `CustomDir` is purely synthetic. -/
def syntheticEntries : DirEntries → Bool
  | .nil => true
  | .cons _ child rest => syntheticB child && syntheticEntries rest
end

/-- The kind of a target-state entry, content erased: `true` for a directory,
`false` for a file. -/
def kindB : FsKind → Bool
  | .dir => true
  | .file _ => false

/-- The kind of what a target state holds at a path, if anything. -/
def kindOf (fs : TargetFs) (p : MPath) : Option Bool :=
  (lookupFs fs p).map kindB

/-- Kind evolution along a render: an entry may appear at a fresh path, but an
existing entry never changes kind (nothing converts a file to a directory or
back, and nothing is deleted). -/
def kindLe (a b : Option Bool) : Prop := a = none ∨ a = b

/-- Whether some file entry of `L` is written at target path `r` (directory
entries never overwrite anything). -/
def writesIn (target_dir : MPath) (L : List VirtualFile) (r : MPath) : Prop :=
  ∃ w ∈ L, w.is_dir = false ∧ target_dir.join w.path = r

/-- Predicate on one sink call: a directory record carries a nonempty path. -/
def dirCallNonRoot : SinkCall → Bool
  | .directory p => !p.isEmptyOs
  | .fileEntry _ _ => true

/-- An empty host snapshot: no path exists. -/
def hfsNone : HFs := fun _ => none

/-- A host snapshot holding a file at every path (used to contrast snapshots
in the determinism claim). -/
def hfsAllFiles : HFs := fun _ => some (.file [0])

/-- The tree `dir! { "a" => text("x"), "a" => dir!() }`: two entries sharing
the name `a`, the first producing a file, the second a directory, so the
render's `fs::create_dir_all` for the second entry fails. -/
def dupNameTree : MountSource :=
  .customDir (.cons ⟨false, ["a"]⟩ (.textContent "x")
    (.cons ⟨false, ["a"]⟩ (.customDir .nil) .nil))

/-- The target state `render_to_fs` leaves behind for `dupNameTree` under
`out`: `out` is a directory and `out/a` the text file. -/
def dupNameFs : TargetFs :=
  [(⟨false, ["out", "a"]⟩, .file (utf8Bytes "x")), (⟨false, ["out"]⟩, .dir)]

/-- Host snapshot for the file-set counterexample: `base` is a directory
containing the single file `a.txt` with byte content `a`. -/
def c3hfs : HFs := fun p =>
  if p = ⟨false, ["base"]⟩ then some (.dir (.cons "a.txt" (.file [97]) .nil)) else none

/-- A file set anchored at `base` whose filter accepts exactly the path
`a.txt` — the glob set built from the single wildcard-free pattern `a.txt`,
which matches just that literal path. -/
def c3set : FileSet :=
  ⟨⟨false, ["base"]⟩, fun p => decide (p = ⟨false, ["a.txt"]⟩)⟩

/-- A possible behavior of the external parser `Glob::new`: it rejects the
unclosed character class `[` and accepts anything else. -/
def globNewStub : String → Except PatternError Glob :=
  fun s => if s = "[" then .error ⟨"unclosed character class"⟩ else .ok ⟨s⟩

/-- A builder anchored at `base` with no patterns yet (`dir("base")`). -/
def emptyBuilder : FileSetBuilder := ⟨⟨false, ["base"]⟩, []⟩

/-- A small synthetic tree for witnesses: `dir! { "a" => text("hi") }`. -/
def smallTree : MountSource :=
  .customDir (.cons ⟨false, ["a"]⟩ (.textContent "hi") .nil)

/-- The target state `render_to_fs` leaves behind for `smallTree` under
`out`. -/
def smallTreeFs : TargetFs :=
  [(⟨false, ["out", "a"]⟩, .file (utf8Bytes "hi")), (⟨false, ["out"]⟩, .dir)]

/-! ### Helper lemmas -/

/-- Every directory record fed to the zip writer carries a nonempty path: the
`is_dir` branch skips exactly the entries with an empty path. -/
theorem zipCalls_dirs_nonroot (L : List VirtualFile) :
    (zipCalls L).all dirCallNonRoot = true := by
  induction L with
  | nil => rfl
  | cons w rest ih =>
    cases hd : w.is_dir
    · cases hc : w.content
      · simp [zipCalls, hd, hc]
      · simp [zipCalls, hd, hc, ih, dirCallNonRoot]
    · cases he : w.path.isEmptyOs
      · simp [zipCalls, hd, he, ih, dirCallNonRoot]
      · simp [zipCalls, hd, he, ih]

/-- Every directory header fed to the tar builder carries a nonempty path. -/
theorem tarCalls_dirs_nonroot (L : List VirtualFile) :
    (tarCalls L).all dirCallNonRoot = true := by
  induction L with
  | nil => rfl
  | cons w rest ih =>
    cases hd : w.is_dir
    · cases hc : w.content
      · simp [tarCalls, hd, hc]
      · simp [tarCalls, hd, hc, ih, dirCallNonRoot]
    · cases he : w.path.isEmptyOs
      · simp [tarCalls, hd, he, ih, dirCallNonRoot]
      · simp [tarCalls, hd, he, ih]

/-! ### C2 — empty archive-entry paths -/

/-- C2 counterexample: a tree whose root source is `TextContent` resolves to a
single file virtual file at the empty root mount point, and both archive
renderers feed the sink a FILE entry whose path is empty — the emptiness check
sits only in the `is_dir` branch. This refutes the claim that rendering to
ZIP or gzip-tar never produces an archive entry with an empty path. -/
theorem archiveRootFile_counterexample :
    renderToZip hfsNone (.textContent "x") =
      [SinkCall.fileEntry ⟨false, []⟩ (utf8Bytes "x")] ∧
    renderToTarGz hfsNone (.textContent "x") =
      [SinkCall.fileEntry ⟨false, []⟩ (utf8Bytes "x")] ∧
    (⟨false, []⟩ : MPath).isEmptyOs = true :=
  ⟨rfl, rfl, rfl⟩

/-- C2 (amended): for every tree, rendering to ZIP or gzip-tar never produces
a DIRECTORY entry with an empty path — the synthetic root directory entry is
skipped by both archive renderers. (A tree whose root source resolves to a
file, such as a root `TextContent`, is emitted as a file entry at the empty
path, so the claim does not extend to file entries.) -/
theorem archiveDirEntries_nonempty (hfs : HFs) (src : MountSource) :
    ((renderToZip hfs src).all dirCallNonRoot = true) ∧
    ((renderToTarGz hfs src).all dirCallNonRoot = true) :=
  ⟨zipCalls_dirs_nonroot _, tarCalls_dirs_nonroot _⟩

/-! ### C4 — invalid include patterns -/

/-- C4 counterexample: calling `include` with an invalid pattern (here the
unclosed character class `[`, rejected by the parser) does not surface a
recoverable `PatternError` value to the caller — the `.unwrap()` inside
`include` panics. The call's result type (`&mut Self` in the source) has no
error channel at all. -/
theorem includeInvalidPattern_counterexample :
    FileSetBuilder.includePat globNewStub emptyBuilder "[" = .panicked :=
  rfl

/-- C4 (amended): for every pattern string, if the external `Glob::new` parser
rejects it, `include` panics immediately (the parse error hits an `unwrap`),
before any rendering begins; if the parser accepts it, `include` appends the
parsed glob to the builder's include list and returns the builder for
chaining. -/
theorem includePat_behavior (globNew : String → Except PatternError Glob)
    (b : FileSetBuilder) (s : String) :
    (∀ e, globNew s = .error e → FileSetBuilder.includePat globNew b s = .panicked) ∧
    (∀ g, globNew s = .ok g →
      FileSetBuilder.includePat globNew b s = .ok ⟨b.base_dir, b.includes ++ [g]⟩) := by
  constructor
  · intro e he
    simp [FileSetBuilder.includePat, he]
  · intro g hg
    simp [FileSetBuilder.includePat, hg]

/-- Witness for the amended C4: concrete invalid and valid calls. -/
theorem includePat_behavior_witness :
    FileSetBuilder.includePat globNewStub emptyBuilder "[" = .panicked ∧
    FileSetBuilder.includePat globNewStub emptyBuilder "*.txt" =
      .ok ⟨⟨false, ["base"]⟩, [⟨"*.txt"⟩]⟩ :=
  ⟨(includePat_behavior globNewStub emptyBuilder "[").1 ⟨"unclosed character class"⟩ rfl,
   (includePat_behavior globNewStub emptyBuilder "*.txt").2 ⟨"*.txt"⟩ rfl⟩

/-! ### C6 — path composition and text content fidelity -/

/-- C6: a top-level `CustomDir` entry named `sub` holding `text("x")` resolves
to exactly one file virtual file, at relative path `sub`; rendering a
`text(t)` source to the filesystem creates one file whose byte content is
exactly the UTF-8 bytes of `t` (e.g. `text("hello")` gives exactly the five
bytes `hello`, no trailing newline). -/
theorem textEntry_pathAndContent (hfs : HFs) (t : String) :
    (walkVirtualFiles hfs
        (.customDir (.cons ⟨false, ["sub"]⟩ (.textContent "x") .nil))).filter
        (fun w => !w.is_dir) =
      [VirtualFile.file ⟨false, ["sub"]⟩ (some (utf8Bytes "x"))] ∧
    renderToFs hfs (.textContent t) ⟨false, ["out"]⟩ [] =
      some [(⟨false, ["out"]⟩, FsKind.file (utf8Bytes t))] ∧
    utf8Bytes "hello" = [104, 101, 108, 108, 111] :=
  ⟨rfl, rfl, rfl⟩

/-! ### C7 — empty directory preservation -/

/-- C7: resolving an empty `CustomDir` emits exactly one directory virtual
file at its mount point, and rendering `dir!{ "empty" => dir!() }` to ZIP or
gzip-tar writes an explicit directory record for `empty` even though it
contains no files. -/
theorem emptyDir_preserved (hfs : HFs) (pt : MPath) :
    resolveVirtualFiles hfs (.customDir .nil) pt = [VirtualFile.dir pt] ∧
    renderToZip hfs (.customDir (.cons ⟨false, ["empty"]⟩ (.customDir .nil) .nil)) =
      [SinkCall.directory ⟨false, ["empty"]⟩] ∧
    renderToTarGz hfs (.customDir (.cons ⟨false, ["empty"]⟩ (.customDir .nil) .nil)) =
      [SinkCall.directory ⟨false, ["empty"]⟩] :=
  ⟨rfl, rfl, rfl⟩

/-! ### C5 — depth-first ordering of custom directories -/

/-- C5: for a `CustomDir` with entries `[a, b, c]`, the flattened virtual-file
sequence is the current node's own resolution (one directory entry at the
root mount point) first, followed by `a`'s full subtree, then `b`'s, then
`c`'s, each subtree walked from the mount point obtained by joining the
entry's name onto the parent's mount point. -/
theorem customDir_order (hfs : HFs) (na nb nc : MPath) (a b c : MountSource) :
    walkVirtualFiles hfs (.customDir (.cons na a (.cons nb b (.cons nc c .nil)))) =
      VirtualFile.dir MPath.root ::
        (entrySubtree hfs MPath.root na a ++ entrySubtree hfs MPath.root nb b ++
          entrySubtree hfs MPath.root nc c) := by
  simp [walkVirtualFiles, walkMounts, walkRecursive, walkEntriesRec, entrySubtree,
    resolveVirtualFiles, List.append_assoc]

/-! ### C9 — absolute entry names replace the mount point -/

/-- C9: joining an absolute entry name onto the parent mount point replaces
the mount point entirely (`Path::join` semantics), so the entry's virtual
files carry the absolute path itself, `target_dir.join` leaves that path
unchanged, and `render_to_fs` writes the file at the absolute location
(together with its parent directories), outside the target directory. -/
theorem absoluteEntryName_escapes (hfs : HFs) (n : MPath) (t : String)
    (target_dir : MPath) (hn : n.absolute = true) :
    walkVirtualFiles hfs (.customDir (.cons n (.textContent t) .nil)) =
      [VirtualFile.dir MPath.root, VirtualFile.file n (some (utf8Bytes t))] ∧
    target_dir.join n = n ∧
    renderToFs hfs (.customDir (.cons ⟨true, ["tmp", "x"]⟩ (.textContent t) .nil))
        ⟨false, ["out"]⟩ [] =
      some [(⟨true, ["tmp", "x"]⟩, .file (utf8Bytes t)), (⟨true, ["tmp"]⟩, .dir),
            (⟨false, ["out"]⟩, .dir)] := by
  refine ⟨?_, ?_, rfl⟩
  · simp [walkVirtualFiles, walkMounts, walkRecursive, walkEntriesRec,
      resolveVirtualFiles, MPath.join, MPath.root, hn]
  · simp [MPath.join, hn]

/-- Witness for C9 at a concrete absolute name. -/
theorem absoluteEntryName_escapes_witness :
    (MPath.mk true ["a"]).absolute = true ∧
    (walkVirtualFiles hfsNone (.customDir (.cons ⟨true, ["a"]⟩ (.textContent "z") .nil)) =
        [VirtualFile.dir MPath.root, VirtualFile.file ⟨true, ["a"]⟩ (some (utf8Bytes "z"))] ∧
      (MPath.mk false ["w"]).join ⟨true, ["a"]⟩ = ⟨true, ["a"]⟩ ∧
      renderToFs hfsNone (.customDir (.cons ⟨true, ["tmp", "x"]⟩ (.textContent "z") .nil))
          ⟨false, ["out"]⟩ [] =
        some [(⟨true, ["tmp", "x"]⟩, .file (utf8Bytes "z")), (⟨true, ["tmp"]⟩, .dir),
              (⟨false, ["out"]⟩, .dir)]) :=
  ⟨rfl, absoluteEntryName_escapes hfsNone ⟨true, ["a"]⟩ "z" ⟨false, ["w"]⟩ rfl⟩

/-! ### C3 — file-set filtering is applied to the full path -/

/-- C3 counterexample: `base` contains the single file `a.txt` and the filter
accepts exactly the relative path `a.txt` (the glob set built from the
literal pattern `a.txt`). The claim says resolution emits exactly the entries
whose path relative to `base_dir` passes the filter — here the file `a.txt` —
but the implementation passes each entry's FULL path (`base/a.txt`, and
`base` itself for the base directory) to the filter, so it emits nothing.
`resolveFileSetSpec` is the resolution as the spec words it, for contrast. -/
theorem fileSetRelativeFilter_counterexample :
    c3set.matches ⟨false, ["a.txt"]⟩ = true ∧
    resolveVirtualFiles c3hfs (.fileSet c3set) MPath.root = [] ∧
    resolveFileSetSpec c3hfs c3set MPath.root =
      [VirtualFile.file ⟨false, ["a.txt"]⟩ (some [97])] :=
  ⟨rfl, rfl, rfl⟩

/-- C3 (amended): resolving a `FileSet` emits exactly the walked entries of
the real subtree under `base_dir` whose FULL path — `base_dir` joined with
the entry's relative path — is accepted by the filter, each emitted at the
mount point joined with its relative path. -/
theorem fileSet_fullPathFilter (hfs : HFs) (set : FileSet) (pt : MPath)
    (v : VirtualFile) :
    v ∈ resolveVirtualFiles hfs (.fileSet set) pt ↔
      ∃ e ∈ walkdir hfs set.base_dir,
        set.matches (set.base_dir.joinRel e.rel) = true ∧
        v = createVirtualFileFromDirEntry e pt := by
  simp only [resolveVirtualFiles, List.mem_map, List.mem_filter]
  constructor
  · rintro ⟨e, ⟨he, hm⟩, hv⟩
    exact ⟨e, he, hm, hv.symm⟩
  · rintro ⟨e, he, hm, hv⟩
    exact ⟨e, ⟨he, hm⟩, hv.symm⟩

/-! ### C1 — which render failures abort and which are swallowed -/

/-- C1 counterexample: rendering `dir!{ "a" => text("x"), "a" => dir!() }` to
the filesystem first writes the file `out/a`, then tries to create the
directory `out/a`; that `fs::create_dir_all` call fails (the path exists as a
file), but its `Result` is discarded, so the render completes successfully.
This refutes the claim that every I/O failure during a render aborts the call
and is surfaced: the second conjunct exhibits the failing directory creation
on the very state the render ran it against. -/
theorem renderIgnoresDirFailure_counterexample :
    renderToFs hfsNone dupNameTree ⟨false, ["out"]⟩ [] = some dupNameFs ∧
    createDirAll dupNameFs ⟨false, ["out", "a"]⟩ = none :=
  ⟨rfl, rfl⟩

/-- C1 (amended): failures that reach an `unwrap` abort the render as a panic
— a file whose lazy `File::open` failed, a rootless file path, a failing
`File::create`. But `render_to_fs` discards the `Result` of both
`fs::create_dir_all` calls, so a failing directory creation is silently
ignored and the render continues with the state unchanged; and a `FileSet`
whose `base_dir` is missing silently resolves to no files at all, because
`walkdir`'s `filter_map(|e| e.ok())` drops the enumeration error. -/
theorem renderFailure_behavior (target_dir : MPath) (fs : TargetFs) (w : VirtualFile) :
    (w.is_dir = true →
      renderStep target_dir fs w = some ((createDirAll fs (target_dir.join w.path)).getD fs)) ∧
    (w.is_dir = true → createDirAll fs (target_dir.join w.path) = none →
      renderStep target_dir fs w = some fs) ∧
    (w.is_dir = false → w.content = none → renderStep target_dir fs w = none) ∧
    (∀ c, w.is_dir = false → w.content = some c →
      (target_dir.join w.path).parent = none →
      renderStep target_dir fs w = none) ∧
    (∀ c par, w.is_dir = false → w.content = some c →
      (target_dir.join w.path).parent = some par →
      fileCreate ((createDirAll fs par).getD fs) (target_dir.join w.path) c = none →
      renderStep target_dir fs w = none) ∧
    (∀ (hfs : HFs) (set : FileSet) (pt : MPath),
      hfs set.base_dir = none → resolveVirtualFiles hfs (.fileSet set) pt = []) := by
  refine ⟨?_, ?_, ?_, ?_, ?_, ?_⟩
  · intro hd
    simp [renderStep, hd]
  · intro hd hfail
    simp [renderStep, hd, hfail]
  · intro hd hc
    simp [renderStep, hd, hc]
  · intro c hd hc hpar
    simp [renderStep, hd, hc, hpar]
  · intro c par hd hc hpar hfail
    simp [renderStep, hd, hc, hpar, hfail]
  · intro hfs set pt hnone
    simp [resolveVirtualFiles, walkdir, hnone]

/-- Witness for the amended C1: a concrete swallowed directory failure, a
concrete rootless-output-path panic, and a concrete aborting file-creation
failure. -/
theorem renderFailure_behavior_witness :
    renderStep ⟨false, ["o"]⟩ [(⟨false, ["o", "d"]⟩, FsKind.file [])]
        (VirtualFile.dir ⟨false, ["d"]⟩) =
      some [(⟨false, ["o", "d"]⟩, FsKind.file [])] ∧
    renderStep ⟨false, []⟩ [] (VirtualFile.file ⟨false, []⟩ (some [1])) = none ∧
    renderStep ⟨false, ["o"]⟩ [(⟨false, ["o"]⟩, FsKind.file [])]
        (VirtualFile.file ⟨false, ["f"]⟩ (some [1])) = none :=
  ⟨(renderFailure_behavior _ _ _).2.1 rfl rfl,
   (renderFailure_behavior _ _ _).2.2.2.1 [1] rfl rfl rfl,
   (renderFailure_behavior _ _ _).2.2.2.2.1 [1] ⟨false, ["o"]⟩ rfl rfl rfl rfl⟩

/-! ### C10 — determinism of purely synthetic trees -/

/-- Resolution of a synthetic mount source never consults the host snapshot. -/
theorem resolve_synthetic (h1 h2 : HFs) (src : MountSource) (pt : MPath)
    (hs : syntheticB src = true) :
    resolveVirtualFiles h1 src pt = resolveVirtualFiles h2 src pt := by
  cases src with
  | copyFromPath p => simp [syntheticB] at hs
  | customDir es => rfl
  | textContent t => rfl
  | fileSet s => simp [syntheticB] at hs

mutual
/-- Every mount produced by walking a synthetic source is itself synthetic. -/
theorem walkRec_synthetic : ∀ (src : MountSource) (pt : MPath),
    syntheticB src = true → ∀ m ∈ walkRecursive src pt, syntheticB m.source = true
  | .customDir es, pt, hs => by
    intro m hm
    simp only [walkRecursive, List.mem_cons] at hm
    rcases hm with h | h
    · subst h
      exact hs
    · exact walkEntries_synthetic es pt hs m h
  | .copyFromPath p, pt, hs => by
    simp [syntheticB] at hs
  | .textContent t, pt, hs => by
    intro m hm
    simp only [walkRecursive, List.mem_singleton] at hm
    subst hm
    exact hs
  | .fileSet s, pt, hs => by
    simp [syntheticB] at hs
/-- Every mount produced by walking synthetic entries is itself synthetic. -/
theorem walkEntries_synthetic : ∀ (es : DirEntries) (pt : MPath),
    syntheticEntries es = true → ∀ m ∈ walkEntriesRec es pt, syntheticB m.source = true
  | .nil, pt, hs => by
    intro m hm
    simp [walkEntriesRec] at hm
  | .cons name child rest, pt, hs => by
    intro m hm
    simp only [walkEntriesRec, List.mem_append] at hm
    rw [syntheticEntries, Bool.and_eq_true] at hs
    rcases hm with h | h
    · exact walkRec_synthetic child (pt.join name) hs.1 m h
    · exact walkEntries_synthetic rest pt hs.2 m h
end

/-- C10: for every purely synthetic mount source (only `CustomDir` and
`TextContent` variants), the flattened virtual-file sequence is the same for
any two host snapshots — the result depends only on the tree value, so any
two flattenings agree on every path, directory flag and content. -/
theorem walkVirtualFiles_deterministic (src : MountSource)
    (hs : syntheticB src = true) (h1 h2 : HFs) :
    walkVirtualFiles h1 src = walkVirtualFiles h2 src := by
  unfold walkVirtualFiles walkMounts
  have hall := walkRec_synthetic src MPath.root hs
  generalize walkRecursive src MPath.root = L at hall ⊢
  induction L with
  | nil => rfl
  | cons m rest ih =>
    simp only [List.flatMap_cons]
    rw [resolve_synthetic h1 h2 m.source m.point (hall m (by simp)),
      ih (fun m' hm' => hall m' (by simp [hm']))]

/-- Witness for C10: a concrete synthetic tree flattened against two
disagreeing host snapshots. -/
theorem walkVirtualFiles_deterministic_witness :
    syntheticB smallTree = true ∧
    walkVirtualFiles hfsNone smallTree = walkVirtualFiles hfsAllFiles smallTree :=
  ⟨rfl, walkVirtualFiles_deterministic smallTree rfl hfsNone hfsAllFiles⟩

/-! ### C8 — pointwise lemmas about the target-state operations -/

theorem kindLe_refl (a : Option Bool) : kindLe a a := Or.inr rfl

theorem kindLe_trans {a b c : Option Bool} (h1 : kindLe a b) (h2 : kindLe b c) :
    kindLe a c := by
  rcases h1 with h | h
  · exact Or.inl h
  · rw [h]
    exact h2

theorem kindLe_some {a b : Option Bool} {x : Bool} (h : kindLe a b) (ha : a = some x) :
    b = some x := by
  rcases h with h | h
  · rw [h] at ha
    cases ha
  · rw [← h, ha]

theorem lookupFs_filter_ne (fs : TargetFs) (p q : MPath) (hne : p ≠ q) :
    lookupFs (fs.filter (fun e => decide (e.1 ≠ p))) q = lookupFs fs q := by
  induction fs with
  | nil => rfl
  | cons a rest ih =>
    obtain ⟨a1, a2⟩ := a
    simp only [List.filter_cons]
    by_cases ha : a1 = p
    · rw [if_neg (by simp [ha])]
      rw [ih]
      have h2 : ¬ a1 = q := by rw [ha]; exact hne
      simp [lookupFs, h2]
    · rw [if_pos (by simp [ha])]
      simp only [lookupFs]
      rw [ih]

theorem lookupFs_insertFs (fs : TargetFs) (p : MPath) (k : FsKind) (q : MPath) :
    lookupFs (insertFs fs p k) q = if p = q then some k else lookupFs fs q := by
  unfold insertFs
  by_cases h : p = q
  · simp [lookupFs, h]
  · simp only [lookupFs]
    rw [if_neg h, if_neg h]
    exact lookupFs_filter_ne fs p q h

theorem kindOf_insertFs (fs : TargetFs) (p : MPath) (k : FsKind) (q : MPath) :
    kindOf (insertFs fs p k) q = if p = q then some (kindB k) else kindOf fs q := by
  unfold kindOf
  rw [lookupFs_insertFs]
  by_cases h : p = q <;> simp [h]

theorem kindOf_eq_dir {fs : TargetFs} {r : MPath} :
    kindOf fs r = some true ↔ lookupFs fs r = some .dir := by
  unfold kindOf
  cases h : lookupFs fs r with
  | none => simp
  | some k => cases k <;> simp [kindB]

theorem kindOf_eq_file {fs : TargetFs} {r : MPath} :
    kindOf fs r = some false ↔ ∃ c, lookupFs fs r = some (.file c) := by
  unfold kindOf
  cases h : lookupFs fs r with
  | none => simp
  | some k => cases k <;> simp [kindB]

theorem mkdirOne_cases {fs fs' : TargetFs} {q : MPath} (h : mkdirOne fs q = some fs') :
    fs' = fs ∨ (lookupFs fs q = none ∧ fs' = insertFs fs q .dir) := by
  unfold mkdirOne at h
  by_cases hq : q.components = []
  · simp [hq] at h
    exact Or.inl h.symm
  · simp only [hq, if_false] at h
    cases hl : lookupFs fs q with
    | none =>
      rw [hl] at h
      simp at h
      exact Or.inr ⟨rfl, h.symm⟩
    | some k =>
      cases k with
      | file c => rw [hl] at h; simp at h
      | dir => rw [hl] at h; simp at h; exact Or.inl h.symm

theorem mkdirOne_preserve_some {fs fs' : TargetFs} {q : MPath}
    (h : mkdirOne fs q = some fs') {r : MPath} {k : FsKind}
    (hr : lookupFs fs r = some k) : lookupFs fs' r = some k := by
  rcases mkdirOne_cases h with h1 | ⟨hnone, h1⟩
  · rw [h1]
    exact hr
  · rw [h1, lookupFs_insertFs]
    by_cases hqr : q = r
    · rw [hqr] at hnone
      rw [hnone] at hr
      cases hr
    · simp [hqr, hr]

theorem mkdirOne_kindLe {fs fs' : TargetFs} {q : MPath}
    (h : mkdirOne fs q = some fs') (r : MPath) :
    kindLe (kindOf fs r) (kindOf fs' r) := by
  cases hl : lookupFs fs r with
  | none => exact Or.inl (by simp [kindOf, hl])
  | some k =>
    right
    have := mkdirOne_preserve_some h hl
    simp [kindOf, hl, this]

theorem mkdirOne_back_file {fs fs' : TargetFs} {q : MPath}
    (h : mkdirOne fs q = some fs') {r : MPath} {c : List Nat}
    (hr : lookupFs fs' r = some (.file c)) : lookupFs fs r = some (.file c) := by
  rcases mkdirOne_cases h with h1 | ⟨hnone, h1⟩
  · rw [← h1]
    exact hr
  · rw [h1, lookupFs_insertFs] at hr
    by_cases hqr : q = r
    · simp [hqr] at hr
    · simpa [hqr] using hr

theorem mkdirOne_none {fs : TargetFs} {q : MPath} (h : mkdirOne fs q = none) :
    q.components ≠ [] ∧ ∃ c, lookupFs fs q = some (.file c) := by
  unfold mkdirOne at h
  by_cases hq : q.components = []
  · simp [hq] at h
  · refine ⟨hq, ?_⟩
    simp only [hq, if_false] at h
    cases hl : lookupFs fs q with
    | none => rw [hl] at h; simp at h
    | some k =>
      cases k with
      | file c => exact ⟨c, rfl⟩
      | dir => rw [hl] at h; simp at h

theorem mkdirOne_exists_dir {fs : TargetFs} {q : MPath}
    (hd : q.components = [] ∨ lookupFs fs q = some .dir) : mkdirOne fs q = some fs := by
  unfold mkdirOne
  rcases hd with h | h
  · simp [h]
  · by_cases hq : q.components = []
    · simp [hq]
    · simp [hq, h]

theorem mkdirOne_file_none {fs : TargetFs} {q : MPath} {c : List Nat}
    (hq : q.components ≠ []) (hf : lookupFs fs q = some (.file c)) :
    mkdirOne fs q = none := by
  simp [mkdirOne, hq, hf]

theorem mkdirOne_ensures {fs fs' : TargetFs} {q : MPath} (h : mkdirOne fs q = some fs') :
    q.components = [] ∨ lookupFs fs' q = some .dir := by
  unfold mkdirOne at h
  by_cases hq : q.components = []
  · exact Or.inl hq
  · right
    simp only [hq, if_false] at h
    cases hl : lookupFs fs q with
    | none =>
      rw [hl] at h
      simp at h
      rw [← h, lookupFs_insertFs]
      simp
    | some k =>
      cases k with
      | file c => rw [hl] at h; simp at h
      | dir => rw [hl] at h; simp at h; rw [← h]; exact hl

theorem foldMkdir_preserve_some : ∀ (l : List MPath) (fs fs' : TargetFs),
    List.foldlM mkdirOne fs l = some fs' →
    ∀ {r : MPath} {k : FsKind}, lookupFs fs r = some k → lookupFs fs' r = some k := by
  intro l
  induction l with
  | nil =>
    intro fs fs' h r k hr
    simp only [List.foldlM_nil] at h
    obtain rfl := Option.some_inj.mp h
    exact hr
  | cons q l' ih =>
    intro fs fs' h r k hr
    rw [List.foldlM_cons] at h
    cases hm : mkdirOne fs q with
    | none => rw [hm] at h; simp at h
    | some fs1 =>
      rw [hm] at h
      simp only [Option.bind_eq_bind, Option.some_bind] at h
      exact ih fs1 fs' h (mkdirOne_preserve_some hm hr)

theorem foldMkdir_kindLe : ∀ (l : List MPath) (fs fs' : TargetFs),
    List.foldlM mkdirOne fs l = some fs' →
    ∀ r, kindLe (kindOf fs r) (kindOf fs' r) := by
  intro l
  induction l with
  | nil =>
    intro fs fs' h r
    simp only [List.foldlM_nil] at h
    obtain rfl := Option.some_inj.mp h
    exact kindLe_refl _
  | cons q l' ih =>
    intro fs fs' h r
    rw [List.foldlM_cons] at h
    cases hm : mkdirOne fs q with
    | none => rw [hm] at h; simp at h
    | some fs1 =>
      rw [hm] at h
      simp only [Option.bind_eq_bind, Option.some_bind] at h
      exact kindLe_trans (mkdirOne_kindLe hm r) (ih fs1 fs' h r)

theorem foldMkdir_back_file : ∀ (l : List MPath) (fs fs' : TargetFs),
    List.foldlM mkdirOne fs l = some fs' →
    ∀ {r : MPath} {c : List Nat}, lookupFs fs' r = some (.file c) →
    lookupFs fs r = some (.file c) := by
  intro l
  induction l with
  | nil =>
    intro fs fs' h r c hr
    simp only [List.foldlM_nil] at h
    obtain rfl := Option.some_inj.mp h
    exact hr
  | cons q l' ih =>
    intro fs fs' h r c hr
    rw [List.foldlM_cons] at h
    cases hm : mkdirOne fs q with
    | none => rw [hm] at h; simp at h
    | some fs1 =>
      rw [hm] at h
      simp only [Option.bind_eq_bind, Option.some_bind] at h
      exact mkdirOne_back_file hm (ih fs1 fs' h hr)

theorem foldMkdir_dirs : ∀ (l : List MPath) (fs fs' : TargetFs),
    List.foldlM mkdirOne fs l = some fs' →
    ∀ r ∈ l, r.components = [] ∨ lookupFs fs' r = some .dir := by
  intro l
  induction l with
  | nil =>
    intro fs fs' h r hr
    simp at hr
  | cons q l' ih =>
    intro fs fs' h r hr
    rw [List.foldlM_cons] at h
    cases hm : mkdirOne fs q with
    | none => rw [hm] at h; simp at h
    | some fs1 =>
      rw [hm] at h
      simp only [Option.bind_eq_bind, Option.some_bind] at h
      rcases List.mem_cons.mp hr with h1 | h1
      · subst h1
        rcases mkdirOne_ensures hm with h2 | h2
        · exact Or.inl h2
        · exact Or.inr (foldMkdir_preserve_some l' fs1 fs' h h2)
      · exact ih fs1 fs' h r h1

theorem foldMkdir_noop : ∀ (l : List MPath) (fs : TargetFs),
    (∀ r ∈ l, r.components = [] ∨ lookupFs fs r = some .dir) →
    List.foldlM mkdirOne fs l = some fs := by
  intro l
  induction l with
  | nil => intro fs _; rfl
  | cons q l' ih =>
    intro fs h
    rw [List.foldlM_cons, mkdirOne_exists_dir (h q (by simp))]
    simp only [Option.bind_eq_bind, Option.some_bind]
    exact ih fs (fun r hr => h r (by simp [hr]))

theorem foldMkdir_none_file : ∀ (l : List MPath) (fs : TargetFs),
    List.foldlM mkdirOne fs l = none →
    ∃ r ∈ l, r.components ≠ [] ∧ ∃ c, lookupFs fs r = some (.file c) := by
  intro l
  induction l with
  | nil => intro fs h; simp at h
  | cons q l' ih =>
    intro fs h
    rw [List.foldlM_cons] at h
    cases hm : mkdirOne fs q with
    | none =>
      obtain ⟨hq, c, hc⟩ := mkdirOne_none hm
      exact ⟨q, by simp, hq, c, hc⟩
    | some fs1 =>
      rw [hm] at h
      simp only [Option.bind_eq_bind, Option.some_bind] at h
      obtain ⟨r, hr, hq, c, hc⟩ := ih fs1 h
      exact ⟨r, by simp [hr], hq, c, mkdirOne_back_file hm hc⟩

theorem foldMkdir_fails : ∀ (l : List MPath) (fs : TargetFs) (r : MPath),
    r ∈ l → r.components ≠ [] → (∃ c, lookupFs fs r = some (.file c)) →
    List.foldlM mkdirOne fs l = none := by
  intro l
  induction l with
  | nil => intro fs r hr; simp at hr
  | cons q l' ih =>
    intro fs r hr hq hc
    obtain ⟨c, hc⟩ := hc
    rw [List.foldlM_cons]
    rcases List.mem_cons.mp hr with h1 | h1
    · subst h1
      rw [mkdirOne_file_none hq hc]
      rfl
    · cases hm : mkdirOne fs q with
      | none => rfl
      | some fs1 =>
        simp only [Option.bind_eq_bind, Option.some_bind]
        exact ih fs1 r h1 hq ⟨c, mkdirOne_preserve_some hm hc⟩

theorem fileCreate_eq_some {fs fs' : TargetFs} {p : MPath} {c : List Nat}
    (h : fileCreate fs p c = some fs') :
    fs' = insertFs fs p (.file c) ∧ p.components ≠ [] ∧
      lookupFs fs p ≠ some .dir ∧ parentIsDirOk fs p = true := by
  unfold fileCreate at h
  by_cases hp : p.components = []
  · simp [hp] at h
  · simp only [hp, if_false] at h
    cases hl : lookupFs fs p with
    | none =>
      rw [hl] at h
      by_cases hpar : parentIsDirOk fs p
      · simp only [hpar, if_true] at h
        exact ⟨(Option.some_inj.mp h).symm, hp, by simp [hl], hpar⟩
      · simp [hpar] at h
    | some k =>
      cases k with
      | dir => rw [hl] at h; simp at h
      | file c0 =>
        rw [hl] at h
        by_cases hpar : parentIsDirOk fs p
        · simp only [hpar, if_true] at h
          exact ⟨(Option.some_inj.mp h).symm, hp, by simp [hl], hpar⟩
        · simp [hpar] at h

theorem fileCreate_of {fs : TargetFs} {p : MPath} (c : List Nat)
    (hp : p.components ≠ []) (hd : lookupFs fs p ≠ some .dir)
    (hpar : parentIsDirOk fs p = true) :
    fileCreate fs p c = some (insertFs fs p (.file c)) := by
  unfold fileCreate
  simp only [hp, if_false]
  cases hl : lookupFs fs p with
  | none => simp [hpar]
  | some k =>
    cases k with
    | dir => exact absurd hl hd
    | file c0 => simp [hpar]

theorem fileCreate_kindLe {fs fs' : TargetFs} {p : MPath} {c : List Nat}
    (h : fileCreate fs p c = some fs') (r : MPath) :
    kindLe (kindOf fs r) (kindOf fs' r) := by
  obtain ⟨he, hp, hd, hpar⟩ := fileCreate_eq_some h
  subst he
  rw [kindOf_insertFs]
  by_cases hpr : p = r
  · subst hpr
    simp only [if_pos rfl]
    cases hl : lookupFs fs p with
    | none => exact Or.inl (by simp [kindOf, hl])
    | some k =>
      cases k with
      | dir => exact absurd hl hd
      | file c0 => exact Or.inr (by simp [kindOf, hl, kindB])
  · rw [if_neg hpr]
    exact kindLe_refl _

theorem parentIsDirOk_congr {G F : TargetFs} (hk : ∀ r, kindOf G r = kindOf F r)
    (p : MPath) : parentIsDirOk G p = parentIsDirOk F p := by
  unfold parentIsDirOk
  cases hp : p.parent with
  | none => rfl
  | some par =>
    by_cases hroot : par.components = []
    · simp [hroot]
    · have hiff : (lookupFs G par = some FsKind.dir) ↔ (lookupFs F par = some FsKind.dir) := by
        rw [← kindOf_eq_dir, ← kindOf_eq_dir, hk par]
      simp [hroot, hiff]

theorem renderStep_dir_eq {t : MPath} {fs : TargetFs} {w : VirtualFile}
    (hd : w.is_dir = true) :
    renderStep t fs w = some ((createDirAll fs (t.join w.path)).getD fs) := by
  simp [renderStep, hd]

theorem renderStep_file_eq {t : MPath} {fs : TargetFs} {w : VirtualFile} {c : List Nat}
    {par : MPath} (hd : w.is_dir = false) (hc : w.content = some c)
    (hpar : (t.join w.path).parent = some par) :
    renderStep t fs w = fileCreate ((createDirAll fs par).getD fs) (t.join w.path) c := by
  simp [renderStep, hd, hc, hpar]

theorem cdaGetD_kindLe (fs : TargetFs) (p : MPath) (r : MPath) :
    kindLe (kindOf fs r) (kindOf ((createDirAll fs p).getD fs) r) := by
  cases hcda : createDirAll fs p with
  | none => exact kindLe_refl _
  | some fs' => simpa using foldMkdir_kindLe _ _ _ hcda r

theorem cdaGetD_preserve_some (fs : TargetFs) (p : MPath) {r : MPath} {k : FsKind}
    (hr : lookupFs fs r = some k) :
    lookupFs ((createDirAll fs p).getD fs) r = some k := by
  cases hcda : createDirAll fs p with
  | none => simpa using hr
  | some fs' => simpa using foldMkdir_preserve_some _ _ _ hcda hr

theorem renderStep_kindLe {t : MPath} {fs fs1 : TargetFs} {w : VirtualFile}
    (h : renderStep t fs w = some fs1) (r : MPath) :
    kindLe (kindOf fs r) (kindOf fs1 r) := by
  cases hd : w.is_dir
  · cases hc : w.content with
    | none => simp [renderStep, hd, hc] at h
    | some c =>
      cases hpar : (t.join w.path).parent with
      | none => simp [renderStep, hd, hc, hpar] at h
      | some par =>
        rw [renderStep_file_eq hd hc hpar] at h
        exact kindLe_trans (cdaGetD_kindLe fs par r) (fileCreate_kindLe h r)
  · rw [renderStep_dir_eq hd] at h
    obtain rfl := Option.some_inj.mp h
    exact cdaGetD_kindLe fs (t.join w.path) r

theorem renderStep_preserve {t : MPath} {fs fs1 : TargetFs} {w : VirtualFile}
    (h : renderStep t fs w = some fs1) {r : MPath} {k : FsKind}
    (hr : lookupFs fs r = some k)
    (hw : w.is_dir = true ∨ t.join w.path ≠ r) :
    lookupFs fs1 r = some k := by
  cases hd : w.is_dir
  · have hne : t.join w.path ≠ r := by
      rcases hw with h1 | h1
      · rw [hd] at h1; cases h1
      · exact h1
    cases hc : w.content with
    | none => simp [renderStep, hd, hc] at h
    | some c =>
      cases hpar : (t.join w.path).parent with
      | none => simp [renderStep, hd, hc, hpar] at h
      | some par =>
        rw [renderStep_file_eq hd hc hpar] at h
        obtain ⟨he, _, _, _⟩ := fileCreate_eq_some h
        rw [he, lookupFs_insertFs, if_neg hne]
        exact cdaGetD_preserve_some fs par hr
  · rw [renderStep_dir_eq hd] at h
    obtain rfl := Option.some_inj.mp h
    exact cdaGetD_preserve_some fs (t.join w.path) hr

theorem runList_kindLe : ∀ (L : List VirtualFile) (t : MPath) (fs F : TargetFs),
    runList t fs L = some F → ∀ r, kindLe (kindOf fs r) (kindOf F r) := by
  intro L
  induction L with
  | nil =>
    intro t fs F h r
    simp only [runList] at h
    obtain rfl := Option.some_inj.mp h
    exact kindLe_refl _
  | cons w rest ih =>
    intro t fs F h r
    simp only [runList] at h
    cases hs : renderStep t fs w with
    | none => rw [hs] at h; cases h
    | some fs1 =>
      rw [hs] at h
      exact kindLe_trans (renderStep_kindLe hs r) (ih t fs1 F h r)

theorem runList_preserve : ∀ (L : List VirtualFile) (t : MPath) (fs F : TargetFs),
    runList t fs L = some F → ∀ {r : MPath} {k : FsKind},
    lookupFs fs r = some k → ¬ writesIn t L r → lookupFs F r = some k := by
  intro L
  induction L with
  | nil =>
    intro t fs F h r k hr _
    simp only [runList] at h
    obtain rfl := Option.some_inj.mp h
    exact hr
  | cons w rest ih =>
    intro t fs F h r k hr hw
    simp only [runList] at h
    cases hs : renderStep t fs w with
    | none => rw [hs] at h; cases h
    | some fs1 =>
      rw [hs] at h
      have hw1 : ¬ writesIn t rest r := by
        intro hcontra
        obtain ⟨w', hw', hprop⟩ := hcontra
        exact hw ⟨w', by simp [hw'], hprop⟩
      have hcond : w.is_dir = true ∨ t.join w.path ≠ r := by
        cases hdw : w.is_dir
        · right
          intro heq
          exact hw ⟨w, by simp, hdw, heq⟩
        · exact Or.inl rfl
      exact ih t fs1 F h (renderStep_preserve hs hr hcond) hw1

/-- Replaying a `create_dir_all` whose effects (or ignored failure) already
flowed into the final state `F` is a no-op on any state `G` that has the same
shape as `F`: if the original call succeeded, every ancestor is already a
directory in `G`; if it failed, the same file conflict is still present. -/
theorem cdaGetD_noop {fs fs1 F G : TargetFs} {q : MPath}
    (hdisj : createDirAll fs q = some fs1 ∨ (createDirAll fs q = none ∧ fs1 = fs))
    (hkle : ∀ r, kindLe (kindOf fs1 r) (kindOf F r))
    (hshape : ∀ r, kindOf G r = kindOf F r) :
    (createDirAll G q).getD G = G := by
  rcases hdisj with hsucc | ⟨hfail, rfl⟩
  · have hdirs := foldMkdir_dirs _ _ _ hsucc
    have hG : ∀ r ∈ q.ancestorChain, r.components = [] ∨ lookupFs G r = some .dir := by
      intro r hr
      rcases hdirs r hr with h1 | h1
      · exact Or.inl h1
      · right
        have hk1 : kindOf fs1 r = some true := kindOf_eq_dir.mpr h1
        have hkG : kindOf G r = some true := by
          rw [hshape r]
          exact kindLe_some (hkle r) hk1
        exact kindOf_eq_dir.mp hkG
    have h2 : createDirAll G q = some G := foldMkdir_noop _ G hG
    rw [h2]
    rfl
  · obtain ⟨r, hrmem, hrne, c, hc⟩ := foldMkdir_none_file _ _ hfail
    have hk1 : kindOf fs1 r = some false := kindOf_eq_file.mpr ⟨c, hc⟩
    have hkG : kindOf G r = some false := by
      rw [hshape r]
      exact kindLe_some (hkle r) hk1
    obtain ⟨c', hc'⟩ := kindOf_eq_file.mp hkG
    have h2 : createDirAll G q = none := foldMkdir_fails _ G r hrmem hrne ⟨c', hc'⟩
    rw [h2]
    rfl

/-- Replay lemma for the render loop: if running the virtual-file list `L`
from `H` succeeds with final state `F`, then running the same list from any
state `G` that has the shape of `F` and agrees with `F` everywhere except at
paths still to be file-written also succeeds, and ends pointwise equal to
`F`. Instantiated with `G = F` this is idempotence of a successful render. -/
theorem runList_replay : ∀ (L : List VirtualFile) (t : MPath) (H G F : TargetFs),
    runList t H L = some F →
    (∀ r, kindOf G r = kindOf F r) →
    (∀ r, lookupFs G r = lookupFs F r ∨ writesIn t L r) →
    ∃ G', runList t G L = some G' ∧ ∀ r, lookupFs G' r = lookupFs F r := by
  intro L
  induction L with
  | nil =>
    intro t H G F hrun hk hl
    simp only [runList] at hrun
    obtain rfl := Option.some_inj.mp hrun
    refine ⟨G, rfl, fun r => ?_⟩
    rcases hl r with h | h
    · exact h
    · obtain ⟨w, hw, _⟩ := h
      simp at hw
  | cons w rest ih =>
    intro t H G F hrun hk hl
    simp only [runList] at hrun
    cases hstep : renderStep t H w with
    | none => rw [hstep] at hrun; cases hrun
    | some H1 =>
      rw [hstep] at hrun
      have hkleF : ∀ r, kindLe (kindOf H1 r) (kindOf F r) := runList_kindLe rest t H1 F hrun
      cases hd : w.is_dir
      · -- file step
        cases hc : w.content with
        | none => simp [renderStep, hd, hc] at hstep
        | some c =>
          cases hpar : (t.join w.path).parent with
          | none => simp [renderStep, hd, hc, hpar] at hstep
          | some par =>
            rw [renderStep_file_eq hd hc hpar] at hstep
            obtain ⟨hH1, hapne, hapnd, hparok⟩ := fileCreate_eq_some hstep
            have hkleH' : ∀ r,
                kindLe (kindOf ((createDirAll H par).getD H) r) (kindOf F r) :=
              fun r => kindLe_trans (fileCreate_kindLe hstep r) (hkleF r)
            have hnoop : (createDirAll G par).getD G = G := by
              refine @cdaGetD_noop H ((createDirAll H par).getD H) F G par ?_ hkleH' hk
              cases createDirAll H par with
              | none => exact Or.inr ⟨rfl, rfl⟩
              | some X => exact Or.inl rfl
            have hkF_ap : kindOf F (t.join w.path) = some false := by
              have h1 : kindOf H1 (t.join w.path) = some false := by
                rw [hH1, kindOf_insertFs]
                simp [kindB]
              exact kindLe_some (hkleF (t.join w.path)) h1
            have hkG_ap : kindOf G (t.join w.path) = some false := by
              rw [hk (t.join w.path)]
              exact hkF_ap
            have hGnd : lookupFs G (t.join w.path) ≠ some .dir := by
              intro hcontra
              have h2 := kindOf_eq_dir.mpr hcontra
              rw [hkG_ap] at h2
              cases h2
            have hGparok : parentIsDirOk G (t.join w.path) = true := by
              unfold parentIsDirOk at hparok ⊢
              rw [hpar] at hparok ⊢
              by_cases hroot : par.components = []
              · simp [hroot]
              · simp only [hroot, if_false] at hparok ⊢
                have hk1 : kindOf ((createDirAll H par).getD H) par = some true :=
                  kindOf_eq_dir.mpr (of_decide_eq_true hparok)
                have hkGpar : kindOf G par = some true := by
                  rw [hk par]
                  exact kindLe_some (hkleH' par) hk1
                exact decide_eq_true (kindOf_eq_dir.mp hkGpar)
            have hfc2 : fileCreate G (t.join w.path) c =
                some (insertFs G (t.join w.path) (.file c)) :=
              fileCreate_of c hapne hGnd hGparok
            have hstep2 : renderStep t G w =
                some (insertFs G (t.join w.path) (.file c)) := by
              rw [renderStep_file_eq hd hc hpar, hnoop, hfc2]
            have hk1 : ∀ r, kindOf (insertFs G (t.join w.path) (.file c)) r = kindOf F r := by
              intro r
              rw [kindOf_insertFs]
              by_cases hr : t.join w.path = r
              · rw [if_pos hr, ← hr, hkF_ap]
                rfl
              · rw [if_neg hr]
                exact hk r
            have hl1 : ∀ r, lookupFs (insertFs G (t.join w.path) (.file c)) r =
                lookupFs F r ∨ writesIn t rest r := by
              intro r
              rw [lookupFs_insertFs]
              by_cases hr : t.join w.path = r
              · rw [if_pos hr]
                by_cases hwr : writesIn t rest r
                · exact Or.inr hwr
                · left
                  have hH1ap : lookupFs H1 r = some (.file c) := by
                    rw [hH1, lookupFs_insertFs, if_pos hr]
                  exact (runList_preserve rest t H1 F hrun hH1ap hwr).symm
              · rw [if_neg hr]
                rcases hl r with h1 | h1
                · exact Or.inl h1
                · obtain ⟨w', hw', hprop, heq⟩ := h1
                  rcases List.mem_cons.mp hw' with h2 | h2
                  · subst h2
                    exact absurd heq hr
                  · exact Or.inr ⟨w', h2, hprop, heq⟩
            obtain ⟨G', hrunG, hG'⟩ := ih t H1 (insertFs G (t.join w.path) (.file c)) F hrun hk1 hl1
            refine ⟨G', ?_, hG'⟩
            simp only [runList, hstep2]
            exact hrunG
      · -- directory step
        have hH1eq : H1 = (createDirAll H (t.join w.path)).getD H := by
          rw [renderStep_dir_eq hd] at hstep
          exact (Option.some_inj.mp hstep).symm
        have hnoop : (createDirAll G (t.join w.path)).getD G = G := by
          refine @cdaGetD_noop H H1 F G (t.join w.path) ?_ hkleF hk
          rw [hH1eq]
          cases createDirAll H (t.join w.path) with
          | none => exact Or.inr ⟨rfl, rfl⟩
          | some X => exact Or.inl rfl
        have hstep2 : renderStep t G w = some G := by
          rw [renderStep_dir_eq hd, hnoop]
        have hl1 : ∀ r, lookupFs G r = lookupFs F r ∨ writesIn t rest r := by
          intro r
          rcases hl r with h1 | h1
          · exact Or.inl h1
          · obtain ⟨w', hw', hprop, heq⟩ := h1
            rcases List.mem_cons.mp hw' with h2 | h2
            · subst h2
              rw [hd] at hprop
              cases hprop
            · exact Or.inr ⟨w', h2, hprop, heq⟩
        obtain ⟨G', hrunG, hG'⟩ := ih t H1 G F hrun hk hl1
        refine ⟨G', ?_, hG'⟩
        simp only [runList, hstep2]
        exact hrunG

/-- C8: rendering the same mount source to the filesystem twice with the same
target directory is idempotent — if the first render succeeds with final state
`F`, the second render (run against `F`, despite the paths the first one
created) also succeeds, and leaves content pointwise identical to `F`:
directory creation tolerates the pre-existing directories and file creation
truncates and rewrites the same contents. -/
theorem renderToFs_idempotent (hfs : HFs) (src : MountSource) (target_dir : MPath)
    (fs0 F : TargetFs) (h : renderToFs hfs src target_dir fs0 = some F) :
    ∃ F', renderToFs hfs src target_dir F = some F' ∧
      ∀ p, lookupFs F' p = lookupFs F p :=
  runList_replay (walkVirtualFiles hfs src) target_dir fs0 F F h
    (fun _ => rfl) (fun _ => Or.inl rfl)

/-- Witness for C8: a concrete successful render replayed onto its own
result. -/
theorem renderToFs_idempotent_witness :
    renderToFs hfsNone smallTree ⟨false, ["out"]⟩ [] = some smallTreeFs ∧
    ∃ F', renderToFs hfsNone smallTree ⟨false, ["out"]⟩ smallTreeFs = some F' ∧
      ∀ p, lookupFs F' p = lookupFs smallTreeFs p :=
  ⟨rfl, renderToFs_idempotent hfsNone smallTree ⟨false, ["out"]⟩ [] smallTreeFs rfl⟩
